import Mathlib

/-!
Verification of the token-resolution and rate-governed caching pipeline of a
crypto telegram bot, against its natural-language specification.

The TypeScript sources are shallowly embedded:
* JS values that may be `undefined` are modelled as `Option`;
* `Date.now()` is passed in explicitly as a `Nat` millisecond clock
  (natural-number truncated subtraction agrees with the JS code on every
  guard the code performs, since every negative JS difference and the
  truncated `0` fall on the same side of each comparison involved);
* `Map` objects become association lists with key-unique insert/erase;
* network calls become an explicit environment of oracles, and the list of
  calls actually issued is returned alongside the result;
* JS numbers used as ranks / liquidity are modelled as `Int`
  (only their ordering is ever used);
* `Array.prototype.sort` (stable since ES2019) with a numeric comparator is
  modelled as `List.insertionSort` with the preorder the comparator induces;
* components whose implementation files are not under src/ — the rate
  governor and the market data client — are modelled from the spec's
  words; each such definition's doc comment starts
  `Modelled from the spec:`.
-/

namespace CryptoBot

/-! ### TTL cache — `src/utils/cache.ts` (src/unnamed/part_005) -/

/-- `CacheEntry<T> = { value: T; expires: number }`.  The stored `value` is
an `Option` because the JS code can store `undefined` (see `TTLCache.with`,
whose producer may resolve to `undefined`). -/
structure CacheEntry (α : Type) where
  value : Option α
  expires : Nat
deriving Repr, DecidableEq

/-- The private `Map<string, CacheEntry<any>>` of class `TTLCache`. -/
abbrev TTLCache (α : Type) : Type := List (String × CacheEntry α)

namespace TTLCache

def lookup (c : TTLCache α) (k : String) : Option (CacheEntry α) :=
  (List.find? (fun e => e.1 == k) c).map (·.2)

def erase (c : TTLCache α) (k : String) : TTLCache α :=
  List.filter (fun e => e.1 != k) c

/-- `get(key)`: absent → `undefined`; expired → delete the entry and return
`undefined`; otherwise return the stored value. -/
def get (now : Nat) (c : TTLCache α) (k : String) : Option α × TTLCache α :=
  match c.lookup k with
  | none => (none, c)
  | some hit => if hit.expires < now then (none, c.erase k) else (hit.value, c)

/-- `set(key, value, ttlMs)`: stores `{ value, expires: Date.now() + ttlMs }`. -/
def set (now : Nat) (c : TTLCache α) (k : String) (v : Option α) (ttlMs : Nat) :
    TTLCache α :=
  (k, ⟨v, now + ttlMs⟩) :: c.erase k

/-- Result of one call of `TTLCache.with`: the value handed back to the
caller, the cache afterwards, and whether the producer `fn` was invoked
(the producer's one observable side effect). -/
structure WithResult (α : Type) where
  result : Option α
  cache : TTLCache α
  producerInvoked : Bool
deriving Repr, DecidableEq

/-- `with(key, fn, ttlMs)`: return the cached value when `get` yields one
(`cached !== undefined`), else invoke `fn`, store its result, return it.
`nowGet` is the clock at the initial `get`, `nowSet` the clock at the
`set` after the producer resolved; `fn` is the value the producer resolves
to (`none` models a producer resolving to `undefined`). -/
def withKey (nowGet nowSet : Nat) (c : TTLCache α) (k : String) (fn : Option α)
    (ttlMs : Nat) : WithResult α :=
  match get nowGet c k with
  | (some v, c1) => ⟨some v, c1, false⟩
  | (none, c1) => ⟨fn, set nowSet c1 k fn ttlMs, true⟩

end TTLCache

/-! ### Ephemeral callback store — src/unnamed/part_006 -/

/-- One stored callback payload: `{ v: any; exp: number }`. -/
structure CBEntry (α : Type) where
  v : α
  exp : Nat
deriving Repr, DecidableEq

/-- The module-level `Map<string, { v: any; exp: number }>`. -/
abbrev CBStore (α : Type) : Type := List (String × CBEntry α)

/-- `gc()`: evict every entry with `exp < now`. -/
def cbGc (now : Nat) (s : CBStore α) : CBStore α :=
  List.filter (fun e => !(e.2.exp < now : Bool)) s

def cbLookup (s : CBStore α) (id : String) : Option (CBEntry α) :=
  (List.find? (fun e => e.1 == id) s).map (·.2)

def cbErase (s : CBStore α) (id : String) : CBStore α :=
  List.filter (fun e => e.1 != id) s

/-- `putPayload(value, ttlMs)`.  The identifier produced by `randomId()`
(`Math.random`-driven) is supplied as the explicit argument `id`. -/
def putPayload (now : Nat) (s : CBStore α) (id : String) (v : α)
    (ttlMs : Nat) : CBStore α :=
  let s1 := cbGc now s
  (id, ⟨v, now + ttlMs⟩) :: cbErase s1 id

/-- `takePayload(id)`: gc, then one-shot read — a hit is deleted. -/
def takePayload (now : Nat) (s : CBStore α) (id : String) :
    Option α × CBStore α :=
  let s1 := cbGc now s
  match cbLookup s1 id with
  | none => (none, s1)
  | some hit => (some hit.v, cbErase s1 id)

/-! ### String helpers

`String.prototype.toLowerCase` / `toUpperCase` / `trim` — ASCII-faithful,
defined over the character list so that they reduce in the kernel. -/

def jsToLower (s : String) : String := ⟨s.data.map Char.toLower⟩

def jsToUpper (s : String) : String := ⟨s.data.map Char.toUpper⟩

def jsTrim (s : String) : String :=
  ⟨((s.data.dropWhile Char.isWhitespace).reverse.dropWhile
      Char.isWhitespace).reverse⟩

def isHexDigitChar (c : Char) : Bool :=
  c.isDigit || ('a' ≤ c && c ≤ 'f') || ('A' ≤ c && c ≤ 'F')

/-- `const isAddress = (s) => /^0x[a-fA-F0-9]{40}$/.test(s)`
(src/unnamed/part_003). -/
def isAddress (s : String) : Bool :=
  match s.data with
  | '0' :: 'x' :: rest => rest.length == 40 && rest.all isHexDigitChar
  | _ => false

/-! ### DEX trading-pair data model — the spec's `TradingPair` (§3) as
the resolver in src/unnamed/part_003 reads it -/

/-- `baseToken` / `quoteToken` of a trading pair:
`{address, name, symbol}`. -/
structure TokenInfo where
  address : String
  name : String
  symbol : String
deriving Repr, DecidableEq

/-- A trading pair as the resolver consumes it (fields it never inspects
are elided; `liquidityUsd` models `liquidity?.usd`, `volumeH24` models
`volume?.h24`, both `Option` because the nested objects/fields are
optional). -/
structure DexPair where
  chainId : String
  dexId : String
  pairAddress : String
  baseToken : TokenInfo
  quoteToken : TokenInfo
  fdv : Option Int := none
  liquidityUsd : Option Int := none
  volumeH24 : Option Int := none
deriving Repr, DecidableEq

/-! ### Contract resolver — src/unnamed/part_003 -/

/-- `const GOOD_QUOTES = new Set([...])`. -/
def GOOD_QUOTES : List String := ["USDC", "USDT", "WETH", "WBNB", "BUSD", "WBTC"]

/-- `SPECIAL_MAP` (native coins → wrapped Ethereum ERC-20), as
`symbol ↦ (address, note)`. -/
def SPECIAL_MAP (q : String) : Option (String × String) :=
  if q == "eth" then
    some ("0xC02aaA39b223FE8D0A0e5C4F27eAD9083C756Cc2", "Mapped to WETH (Ethereum)")
  else if q == "btc" then
    some ("0x2260FAC5E5542a773Aa44fBCfeDf7C193bc2C599", "Mapped to WBTC (Ethereum)")
  else none

/-- `GOOD_QUOTES.has((p?.quoteToken?.symbol || "").toUpperCase())`. -/
def goodQuote (p : DexPair) : Bool :=
  GOOD_QUOTES.contains (jsToUpper p.quoteToken.symbol)

/-- The `qa` / `qb` numbers of the sort comparator: 1 for a recognized
quote, else 0. -/
def quoteRank (p : DexPair) : Nat := if goodQuote p then 1 else 0

/-- `(p?.liquidity?.usd ?? 0)`. -/
def liqUsd (p : DexPair) : Int := p.liquidityUsd.getD 0

/-- `p?.baseToken?.address && isAddress(p.baseToken.address)` — the filter
building `withAddr`. -/
def hasUsableBase (p : DexPair) : Bool :=
  p.baseToken.address != "" && isAddress p.baseToken.address

/-- "`a` may be placed before `b`" for the resolver's comparator
`(qb - qa) || ((b.liquidity.usd ?? 0) - (a.liquidity.usd ?? 0))`
(ascending order of the comparator = recognized quotes first, then
descending liquidity). -/
def pairBefore (a b : DexPair) : Prop :=
  quoteRank b < quoteRank a ∨ (quoteRank a = quoteRank b ∧ liqUsd b ≤ liqUsd a)

instance : DecidableRel pairBefore := fun a b => by
  unfold pairBefore; infer_instance

instance : IsTotal DexPair pairBefore := ⟨by intro a b; unfold pairBefore; omega⟩

instance : IsTrans DexPair pairBefore := ⟨by
  intro a b c hab hbc; unfold pairBefore at *; omega⟩

/-- Stage-1 candidate selection: `withAddr.sort(comparator)` followed by
`withAddr[0]` (JS `Array.prototype.sort` is stable, as is
`insertionSort`). -/
def selectDexCandidate (pairs : List DexPair) : Option DexPair :=
  ((pairs.filter hasUsableBase).insertionSort pairBefore).head?

/-- The resolver's result type; `source` is the literal string the code
puts in the `source` field (`"dex" | "pair" | "coingecko" | "special"`). -/
structure ResolveResult where
  address : String
  source : String
  note : Option String := none
deriving Repr, DecidableEq

/-- One network call issued by the resolver. -/
inductive NetCall where
  | dexSearch
  | pairDetail
  | cgSearch
  | cgCoin
deriving Repr, DecidableEq

/-- A coin row of the CoinGecko `/search` response as the resolver reads
it: `id` and the optional `market_cap_rank`. -/
structure CGCoin where
  id : String
  market_cap_rank : Option Int := none
deriving Repr, DecidableEq

/-- `(a?.market_cap_rank ?? 1e9)`. -/
def cgRankKey (c : CGCoin) : Int := c.market_cap_rank.getD 1000000000

/-- Ascending order of the comparator
`(a?.market_cap_rank ?? 1e9) - (b?.market_cap_rank ?? 1e9)`. -/
def cgBefore (a b : CGCoin) : Prop := cgRankKey a ≤ cgRankKey b

instance : DecidableRel cgBefore := fun a b => by unfold cgBefore; infer_instance

instance : IsTotal CGCoin cgBefore := ⟨by intro a b; unfold cgBefore; omega⟩

instance : IsTrans CGCoin cgBefore := ⟨by intro a b c hab hbc; unfold cgBefore at *; omega⟩

/-- The `platforms` map of a full CoinGecko coin profile, restricted to the
chains the resolver scans, in its scan order. -/
structure Platforms where
  ethereum : Option String := none
  bsc : Option String := none
  polygon_pos : Option String := none
  arbitrum_one : Option String := none
  avalanche : Option String := none
  base : Option String := none
  optimism : Option String := none
  fantom : Option String := none
deriving Repr, DecidableEq

/-- `[platforms.ethereum, ..., platforms.fantom].filter(Boolean)` —
dropping both missing (`undefined`) and empty-string entries. -/
def platformCandidates (pf : Platforms) : List String :=
  (([pf.ethereum, pf.bsc, pf.polygon_pos, pf.arbitrum_one, pf.avalanche,
     pf.base, pf.optimism, pf.fantom]).filterMap id).filter (fun a => a != "")

/-- The network the resolver talks to, as a per-query oracle:
`dexSearch` is the outcome of `searchDexPairs(q, 8)`, `pairDetail` of
`getPairByChainAndAddress(chainId, pairAddress)` (whose JS result is the
possibly-`undefined` `(data?.pairs ?? [])[0]`), `cgSearchCoins` of the
CoinGecko `/search` call, `cgPlatforms id` of the `/coins/{id}` call.
`Except Unit` models promise rejection. -/
structure ResolverEnv where
  dexSearch : Except Unit (List DexPair)
  pairDetail : String → String → Except Unit (Option DexPair)
  cgSearchCoins : Except Unit (List CGCoin)
  cgPlatforms : String → Except Unit Platforms

/-- Stage 2 of the resolver: iterate the raw search results; for each with
a `pairAddress` and `chainId`, fetch pair detail inside `try`/`catch {}`;
return the first detail exposing a valid base-token address with source
`"pair"`.  Returns the network calls issued and the stage result. -/
def stage2 (env : ResolverEnv) : List DexPair → List NetCall × Option ResolveResult
  | [] => ([], none)
  | p :: rest =>
    if p.pairAddress != "" && p.chainId != "" then
      match env.pairDetail p.chainId p.pairAddress with
      | .error _ =>
        let t := stage2 env rest
        (NetCall.pairDetail :: t.1, t.2)
      | .ok detail =>
        match detail.map (fun d => d.baseToken.address) with
        | some addr =>
          if addr != "" && isAddress addr then
            ([NetCall.pairDetail], some ⟨addr, "pair", none⟩)
          else
            let t := stage2 env rest
            (NetCall.pairDetail :: t.1, t.2)
        | none =>
          let t := stage2 env rest
          (NetCall.pairDetail :: t.1, t.2)
    else stage2 env rest

/-- Stage 3 of the resolver (inside `try`/`catch {}`): CoinGecko search,
rank candidates ascending by `market_cap_rank ?? 1e9`, fetch the top
candidate's platforms, return the first syntactically valid address in the
fixed chain order with source `"coingecko"`. -/
def stage3 (env : ResolverEnv) : List NetCall × Option ResolveResult :=
  match env.cgSearchCoins with
  | .error _ => ([NetCall.cgSearch], none)
  | .ok coins =>
    match (coins.insertionSort cgBefore).head? with
    | none => ([NetCall.cgSearch], none)
    | some top =>
      match env.cgPlatforms top.id with
      | .error _ => ([NetCall.cgSearch, NetCall.cgCoin], none)
      | .ok pf =>
        match (platformCandidates pf).find? isAddress with
        | some a => ([NetCall.cgSearch, NetCall.cgCoin], some ⟨a, "coingecko", none⟩)
        | none => ([NetCall.cgSearch, NetCall.cgCoin], none)

/-- `resolveContractFromQuery(query)` (src/unnamed/part_003): the fallback
chain direct-address → DEX search → pair detail → CoinGecko platforms →
`SPECIAL_MAP`.  Returns the network calls issued together with the
outcome; `.error` models a rejected promise (note that stage 1's
`searchDexPairs` is *not* wrapped in `try`/`catch`, so its failure
propagates). -/
def resolveContractFromQuery (env : ResolverEnv) (query : String) :
    List NetCall × Except Unit (Option ResolveResult) :=
  let q := jsToLower (jsTrim query)
  if isAddress q then ([], .ok (some ⟨q, "dex", none⟩))
  else
    match env.dexSearch with
    | .error e => ([NetCall.dexSearch], .error e)
    | .ok pairs =>
      match selectDexCandidate pairs with
      | some w => ([NetCall.dexSearch], .ok (some ⟨w.baseToken.address, "dex", none⟩))
      | none =>
        let t2 := stage2 env pairs
        match t2.2 with
        | some r => (NetCall.dexSearch :: t2.1, .ok (some r))
        | none =>
          let t3 := stage3 env
          match t3.2 with
          | some r => (NetCall.dexSearch :: (t2.1 ++ t3.1), .ok (some r))
          | none =>
            match SPECIAL_MAP q with
            | some sp =>
              (NetCall.dexSearch :: (t2.1 ++ t3.1), .ok (some ⟨sp.1, "special", some sp.2⟩))
            | none => (NetCall.dexSearch :: (t2.1 ++ t3.1), .ok none)

/-! ### Rate governor — spec §4.3 (its implementation file is not under
src/, so this component is modelled from the spec's words) -/

/-- Modelled from the spec: the `RateBucket` record
`{ tokens, lastRefillAt, lastAdmittedAt }` of the rate governor (not under
src/).  `tokens` is an `Int`; `last` is the last refill instant and
`lastHit` the last admission instant in milliseconds (`0` before any
admission). -/
structure Bucket where
  tokens : Int
  last : Nat
  lastHit : Nat
deriving Repr, DecidableEq

/-- Modelled from the spec: capacity C = 5. -/
def CAPACITY : Int := 5

/-- Modelled from the spec: refill interval R = 6000 ms. -/
def REFILL_MS : Nat := 6000

/-- Modelled from the spec: minimum gap G = 900 ms. -/
def MIN_GAP_MS : Nat := 900

/-- Modelled from the spec: the refill step — with
`elapsed = now - b.last` and `add = floor(elapsed / R)`, add `add` tokens
capped at capacity, advancing the refill timestamp only when at least one
token was added (preventing fractional-interval drift loss). -/
def refillBucket (now : Nat) (b : Bucket) : Bucket :=
  if now - b.last > 0 then
    if (now - b.last) / REFILL_MS > 0 then
      { b with
        tokens := min CAPACITY (b.tokens + ((now - b.last) / REFILL_MS : Nat))
        last := now }
    else b
  else b

/-- Modelled from the spec: the outcome of one admission check —
`allowed | denied("slow down") | denied("exhausted")`; the human-readable
retry estimate of the exhausted denial is presentation only and not
modelled. -/
inductive Decision where
  | allowed
  | deniedGap
  | deniedEmpty
deriving Repr, DecidableEq

/-- Modelled from the spec: the decision on the already-refilled bucket —
the gap rule first (denying without consuming a token), then the
exhaustion check, else consume one token and stamp the admission
instant. -/
def admitCheck (now : Nat) (b : Bucket) : Decision × Bucket :=
  if now - b.lastHit < MIN_GAP_MS then (.deniedGap, b)
  else if b.tokens ≤ 0 then (.deniedEmpty, b)
  else (.allowed, { b with tokens := b.tokens - 1, lastHit := now })

/-- Modelled from the spec: one `admit(conversationId)` call — lazily
create the conversation's bucket with full capacity, refill, then
check. -/
def rateLimiterStep (now : Nat) (b? : Option Bucket) : Decision × Bucket :=
  admitCheck now (refillBucket now (b?.getD ⟨CAPACITY, now, 0⟩))

/-- Run the limiter over a sequence of call instants of one conversation,
recording each decision together with the bucket stored after it. -/
def bucketTrace : List Nat → Option Bucket → List (Decision × Bucket)
  | [], _ => []
  | t :: ts, b? =>
    let s := rateLimiterStep t b?
    s :: bucketTrace ts (some s.2)

/-- The decisions of a call sequence of a fresh conversation. -/
def limiterDecisions (ts : List Nat) : List Decision :=
  (bucketTrace ts none).map (·.1)

/-! ### Market data client — spec §4.4 (its implementation file is not
under src/, so this component is modelled from the spec's words) -/

/-- Modelled from the spec: a candidate coin returned by the market
aggregator's text-search endpoint — an id and a symbol (the market data
client's live fetch is not under src/). -/
structure SearchCoin where
  id : String
  symbol : String
deriving Repr, DecidableEq

/-- Modelled from the spec: a row of the aggregator's markets endpoint —
an id and an optional market-cap rank. -/
structure MarketCoin where
  id : String
  market_cap_rank : Option Int := none
deriving Repr, DecidableEq

/-- Modelled from the spec: the candidates whose symbol equals the query
symbol case-insensitively (the query symbol arrives lower-cased). -/
def exactMatches (sym : String) (coins : List SearchCoin) : List SearchCoin :=
  coins.filter (fun c => jsToLower c.symbol == sym)

/-- Modelled from the spec: filter candidates to exact case-insensitive
symbol matches, falling back to the full candidate set if none match
exactly. -/
def searchCandidates (sym : String) (coins : List SearchCoin) : List SearchCoin :=
  let exact := exactMatches sym coins
  if exact.length > 0 then exact else coins

/-- Modelled from the spec: the ids of up to the top 5 candidates, handed
to the markets lookup. -/
def marketsLookupIds (sym : String) (coins : List SearchCoin) : List String :=
  ((searchCandidates sym coins).take 5).map (·.id)

/-- Modelled from the spec: the ascending market-cap-rank order —
smallest numeric rank first, and a missing rank sorts after all ranked
candidates. -/
def rankLE : Option Int → Option Int → Prop
  | some ra, some rb => ra ≤ rb
  | some _, none => True
  | none, some _ => False
  | none, none => True

instance : DecidableRel rankLE := fun a b => by
  cases a <;> cases b <;> simp only [rankLE] <;> infer_instance

/-- Modelled from the spec: `a` may precede `b` in the ascending
market-cap-rank order. -/
def marketBefore (a b : MarketCoin) : Prop :=
  rankLE a.market_cap_rank b.market_cap_rank

instance : DecidableRel marketBefore := fun a b => by
  unfold marketBefore; infer_instance

instance : IsTotal MarketCoin marketBefore := ⟨by
  intro a b
  unfold marketBefore
  cases a.market_cap_rank <;> cases b.market_cap_rank <;> simp [rankLE] <;> omega⟩

instance : IsTrans MarketCoin marketBefore := ⟨by
  intro a b c hab hbc
  unfold marketBefore at *
  cases ha : a.market_cap_rank <;> cases hb : b.market_cap_rank <;>
    cases hc : c.market_cap_rank <;>
    rw [ha, hb] at hab <;> rw [hb, hc] at hbc <;>
    simp [rankLE] at * <;> omega⟩

/-- Modelled from the spec: pick the single best candidate by ascending
market-cap rank (smallest numeric rank = most prominent; missing rank
sorts last), as the head of a stable sort by that order. -/
def pickBestByMarketCap (coins : List MarketCoin) : Option MarketCoin :=
  (coins.insertionSort marketBefore).head?

/-- Modelled from the spec: the HTTP status attached to a failed live
fetch — `none` when the failure carries no HTTP response (e.g. a network
error). -/
abbrev FetchStatus := Option Nat

/-- Modelled from the spec: a rate-limit (429) or server-error (≥ 500)
status is transient; a failure without a status is not. -/
def isTransientStatus : FetchStatus → Bool
  | some st => st == 429 || decide (500 ≤ st)
  | none => false

/-- Modelled from the spec: the live fetch's transient-failure policy —
retry exactly once after a transient failure, propagate anything else.
`attempt n` is the outcome of the `(n+1)`-th fetch invocation; the
returned `Nat` counts the invocations performed (the fixed short backoff
between them is not modelled as time). -/
def fetchWithRetry (attempt : Nat → Except FetchStatus α) :
    Except FetchStatus α × Nat :=
  match attempt 0 with
  | .ok v => (.ok v, 1)
  | .error e => if isTransientStatus e then (attempt 1, 2) else (.error e, 1)

/-! ### Invariants and concrete fixtures -/

/-- The spec's `RateBucket` invariant: `tokens ∈ [0, capacity]`. -/
def BucketInv (b : Bucket) : Prop := 0 ≤ b.tokens ∧ b.tokens ≤ CAPACITY

/-- A resolver environment in which every network stage fails. -/
def stubEnv : ResolverEnv :=
  ⟨.error (), fun _ _ => .error (), .error (), fun _ => .error ()⟩

/-- A resolver environment in which the DEX search succeeds with no
results and every other stage fails. -/
def emptyEnv : ResolverEnv :=
  ⟨.ok [], fun _ _ => .error (), .error (), fun _ => .error ()⟩

/-- A low-liquidity pair quoted in USDC (recognized quote). -/
def pairUSDC : DexPair :=
  { chainId := "ethereum", dexId := "uniswap", pairAddress := "0xP1"
    baseToken := ⟨"0x2260FAC5E5542a773Aa44fBCfeDf7C193bc2C599", "Wrapped BTC", "WBTC"⟩
    quoteToken := ⟨"0xA0b86991c6218b36c1d19D4a2e9Eb0cE3606eB48", "USD Coin", "USDC"⟩
    liquidityUsd := some 1000 }

/-- A high-liquidity pair quoted in an unrecognized token. -/
def pairObscure : DexPair :=
  { chainId := "ethereum", dexId := "uniswap", pairAddress := "0xP2"
    baseToken := ⟨"0xC02aaA39b223FE8D0A0e5C4F27eAD9083C756Cc2", "Wrapped Ether", "WETH"⟩
    quoteToken := ⟨"0x0000000000000000000000000000000000000001", "Obscure", "OBSCR"⟩
    liquidityUsd := some 900000 }

/-- A first fetch attempt failing with HTTP 429, the retry succeeding. -/
def attempt429 : Nat → Except FetchStatus Nat :=
  fun n => if n == 0 then .error (some 429) else .ok 7

/-- Every fetch attempt failing with HTTP 404. -/
def attempt404 : Nat → Except FetchStatus Nat :=
  fun _ => .error (some 404)

/-! ## Helper lemmas -/

/-- Looking a key up after erasing it (both the TTL cache's and the
callback store's erase are key filters) finds nothing. -/
theorem find?_filter_ne_none (l : List (String × β)) (k : String) :
    List.find? (fun e => e.1 == k) (List.filter (fun e => e.1 != k) l) = none := by
  apply List.find?_eq_none.mpr
  intro x hx
  have hxk := (List.mem_filter.mp hx).2
  simpa using hxk

/-- A `find?` that fails on a list also fails on any filtered sublist. -/
theorem find?_filter_of_none (l : List (String × β)) (k : String)
    (p : String × β → Bool)
    (h : List.find? (fun e => e.1 == k) l = none) :
    List.find? (fun e => e.1 == k) (List.filter p l) = none := by
  apply List.find?_eq_none.mpr
  intro x hx
  exact List.find?_eq_none.mp h x (List.mem_filter.mp hx).1

/-- `gc` preserves the absence of a key. -/
theorem cbLookup_gc_of_none (now : Nat) (L : CBStore α) (id : String)
    (h : List.find? (fun e => e.1 == id) L = none) :
    cbLookup (cbGc now L) id = none := by
  unfold cbLookup cbGc
  rw [find?_filter_of_none _ _ _ h]
  rfl

/-- `takePayload` on a store whose gc'd form lacks the key yields
absent. -/
theorem takePayload_fst_eq_none (now : Nat) (s : CBStore α) (id : String)
    (h : cbLookup (cbGc now s) id = none) :
    (takePayload now s id).1 = none := by
  simp only [takePayload, h]

/-- The head of an insertion sort by a total transitive preorder is a
member of the list that precedes every member. -/
theorem head_insertionSort_min {r : α → α → Prop} [DecidableRel r]
    [IsTotal α r] [IsTrans α r] {l : List α} {w : α}
    (h : (l.insertionSort r).head? = some w) :
    w ∈ l ∧ ∀ b ∈ l, r w b := by
  obtain ⟨t, ht⟩ : ∃ t, l.insertionSort r = w :: t := by
    cases hs : l.insertionSort r with
    | nil => rw [hs] at h; simp at h
    | cons a t =>
      rw [hs] at h
      simp only [List.head?_cons, Option.some.injEq] at h
      subst h
      exact ⟨t, hs ▸ rfl⟩
  have hsorted := List.sorted_insertionSort r l
  rw [ht] at hsorted
  constructor
  · have : w ∈ l.insertionSort r := by rw [ht]; exact List.mem_cons_self _ _
    exact (List.mem_insertionSort r).mp this
  · intro b hb
    have hbs : b ∈ l.insertionSort r := (List.mem_insertionSort r).mpr hb
    rw [ht] at hbs
    rcases List.mem_cons.mp hbs with heq | hbt
    · cases heq
      exact (total_of r w w).elim id id
    · exact List.rel_of_sorted_cons hsorted b hbt

/-! ## Claim theorems -/

/-- C7: for every key `k` and value `v` stored in the TTL cache with ttl
`t`, a `get(k)` within `t` of the set returns `v`; a `get(k)` strictly
after `t` has elapsed returns absent and removes the expired entry; and a
read never returns a value whose expiry instant is in the past. -/
theorem ttlcache_get_set_spec (α : Type) (c : TTLCache α) (k : String) (v : α)
    (ttl t0 now : Nat) :
    (now ≤ t0 + ttl →
      (TTLCache.get now (TTLCache.set t0 c k (some v) ttl) k).1 = some v) ∧
    (t0 + ttl < now →
      TTLCache.get now (TTLCache.set t0 c k (some v) ttl) k =
        (none, TTLCache.erase (TTLCache.set t0 c k (some v) ttl) k)) ∧
    (∀ x, (TTLCache.get now c k).1 = some x →
      ∃ e, TTLCache.lookup c k = some e ∧ e.value = some x ∧ now ≤ e.expires) := by
  refine ⟨?_, ?_, ?_⟩
  · intro h
    have hnot : ¬ (t0 + ttl < now) := by omega
    simp [TTLCache.get, TTLCache.set, TTLCache.lookup, hnot]
  · intro h
    simp [TTLCache.get, TTLCache.set, TTLCache.lookup, h]
  · intro x hx
    cases hl : TTLCache.lookup c k with
    | none => simp only [TTLCache.get, hl] at hx; simp at hx
    | some e =>
      simp only [TTLCache.get, hl] at hx
      by_cases hexp : e.expires < now
      · rw [if_pos hexp] at hx; simp at hx
      · rw [if_neg hexp] at hx
        exact ⟨e, rfl, hx, by omega⟩

/-- Closed witness for `ttlcache_get_set_spec` at concrete inputs. -/
theorem ttlcache_get_set_spec_witness :
    (TTLCache.get 40000 (TTLCache.set 1000 ([] : TTLCache Nat) "k" (some 7) 45000) "k").1
        = some 7 ∧
    TTLCache.get 50000 (TTLCache.set 1000 ([] : TTLCache Nat) "k" (some 7) 45000) "k"
        = (none, TTLCache.erase
            (TTLCache.set 1000 ([] : TTLCache Nat) "k" (some 7) 45000) "k") ∧
    (∃ e, TTLCache.lookup ([("k", ⟨some 7, 5000⟩)] : TTLCache Nat) "k" = some e ∧
      e.value = some 7 ∧ 4000 ≤ e.expires) :=
  ⟨(ttlcache_get_set_spec Nat [] "k" 7 45000 1000 40000).1 (by decide),
   (ttlcache_get_set_spec Nat [] "k" 7 45000 1000 46001).2.1 (by decide),
   (ttlcache_get_set_spec Nat [("k", ⟨some 7, 5000⟩)] "k" 7 45000 1000 4000).2.2
     7 (by decide)⟩

/-- C8: a payload stored in the ephemeral callback store is readable
exactly once — a first `take(id)` performed before expiry returns the
payload and deletes the entry, and any second `take(id)` returns
absent. -/
theorem callback_store_one_shot (α : Type) (s : CBStore α) (id : String)
    (v : α) (ttl t0 t1 t2 : Nat) (h1 : t1 ≤ t0 + ttl) :
    (takePayload t1 (putPayload t0 s id v ttl) id).1 = some v ∧
    cbLookup (takePayload t1 (putPayload t0 s id v ttl) id).2 id = none ∧
    (takePayload t2 (takePayload t1 (putPayload t0 s id v ttl) id).2 id).1 = none := by
  have hkeep : (!((t0 + ttl < t1 : Bool))) = true := by
    simp only [Bool.not_eq_true', decide_eq_false_iff_not]
    omega
  have hgc1 : cbGc t1 (putPayload t0 s id v ttl) =
      (id, ⟨v, t0 + ttl⟩) :: cbGc t1 (cbErase (cbGc t0 s) id) := by
    unfold putPayload cbGc
    simp only [List.filter_cons]
    rw [if_pos]
    simpa using hkeep
  have htake1 : takePayload t1 (putPayload t0 s id v ttl) id =
      (some v, cbErase ((id, ⟨v, t0 + ttl⟩) :: cbGc t1 (cbErase (cbGc t0 s) id)) id) := by
    unfold takePayload
    rw [hgc1]
    simp [cbLookup]
  have hf0 : List.find? (fun e => e.1 == id)
      (cbErase ((id, (⟨v, t0 + ttl⟩ : CBEntry α)) ::
        cbGc t1 (cbErase (cbGc t0 s) id)) id) = none := by
    unfold cbErase
    exact find?_filter_ne_none _ _
  have herase : cbLookup (cbErase ((id, (⟨v, t0 + ttl⟩ : CBEntry α)) ::
      cbGc t1 (cbErase (cbGc t0 s) id)) id) id = none := by
    unfold cbLookup
    rw [hf0]
    rfl
  refine ⟨by rw [htake1], by rw [htake1]; exact herase, ?_⟩
  have hsnd : (takePayload t1 (putPayload t0 s id v ttl) id).2 =
      cbErase ((id, (⟨v, t0 + ttl⟩ : CBEntry α)) ::
        cbGc t1 (cbErase (cbGc t0 s) id)) id := by
    rw [htake1]
  rw [hsnd]
  exact takePayload_fst_eq_none t2 _ id (cbLookup_gc_of_none t2 _ id hf0)

/-- Closed witness for `callback_store_one_shot` at concrete inputs. -/
theorem callback_store_one_shot_witness :
    (takePayload 2000 (putPayload 1000 ([] : CBStore Nat) "id" 42 300000) "id").1 = some 42 ∧
    cbLookup (takePayload 2000 (putPayload 1000 ([] : CBStore Nat) "id" 42 300000) "id").2
      "id" = none ∧
    (takePayload 3000
      (takePayload 2000 (putPayload 1000 ([] : CBStore Nat) "id" 42 300000) "id").2
      "id").1 = none :=
  callback_store_one_shot Nat [] "id" 42 300000 1000 2000 3000 (by decide)

/-- C10: a producer resolving to `undefined` in `TTLCache.with` is
indistinguishable from a miss — the accessor hands `undefined` back, every
later `get` of the key returns `undefined`, and every later `with` for the
key within the TTL invokes its producer again instead of serving the
stored entry. -/
theorem ttlcache_with_undefined_spec (α : Type) (c : TTLCache α) (k : String)
    (ttl t0 : Nat) (hmiss : (TTLCache.get t0 c k).1 = none) :
    (TTLCache.withKey t0 t0 c k none ttl).result = none ∧
    (TTLCache.withKey t0 t0 c k none ttl).producerInvoked = true ∧
    (∀ t, (TTLCache.get t (TTLCache.withKey t0 t0 c k none ttl).cache k).1 = none) ∧
    (∀ t (p2 : Option α), t0 ≤ t → t ≤ t0 + ttl →
      (TTLCache.withKey t t (TTLCache.withKey t0 t0 c k none ttl).cache k p2 ttl).producerInvoked
        = true ∧
      (TTLCache.withKey t t (TTLCache.withKey t0 t0 c k none ttl).cache k p2 ttl).result
        = p2) := by
  have hw : TTLCache.withKey t0 t0 c k none ttl =
      ⟨none, TTLCache.set t0 (TTLCache.get t0 c k).2 k none ttl, true⟩ := by
    unfold TTLCache.withKey
    cases hg : TTLCache.get t0 c k with
    | mk r c1 =>
      cases r with
      | none => rfl
      | some v => rw [hg] at hmiss; simp at hmiss
  have hget : ∀ t, TTLCache.get t
      (TTLCache.set t0 (TTLCache.get t0 c k).2 k none ttl) k =
      (none, (TTLCache.get t
        (TTLCache.set t0 (TTLCache.get t0 c k).2 k none ttl) k).2) := by
    intro t
    by_cases hexp : t0 + ttl < t
    · simp [TTLCache.get, TTLCache.set, TTLCache.lookup, hexp]
    · simp [TTLCache.get, TTLCache.set, TTLCache.lookup, hexp]
  refine ⟨by rw [hw], by rw [hw], ?_, ?_⟩
  · intro t
    rw [hw]
    rw [hget t]
  · intro t p2 _ _
    rw [hw]
    show ((TTLCache.withKey t t (TTLCache.set t0 (TTLCache.get t0 c k).2 k none ttl)
      k p2 ttl).producerInvoked = true) ∧ _
    unfold TTLCache.withKey
    rw [hget t]
    exact ⟨rfl, rfl⟩

/-- Closed witness for `ttlcache_with_undefined_spec` at concrete
inputs. -/
theorem ttlcache_with_undefined_spec_witness :
    (TTLCache.withKey 1000 1000 ([] : TTLCache Nat) "dex:pair:x" none 60000).result = none ∧
    (TTLCache.withKey 1000 1000 ([] : TTLCache Nat) "dex:pair:x" none 60000).producerInvoked
      = true ∧
    (∀ t, (TTLCache.get t
      (TTLCache.withKey 1000 1000 ([] : TTLCache Nat) "dex:pair:x" none 60000).cache
      "dex:pair:x").1 = none) ∧
    (∀ t (p2 : Option Nat), 1000 ≤ t → t ≤ 1000 + 60000 →
      (TTLCache.withKey t t
        (TTLCache.withKey 1000 1000 ([] : TTLCache Nat) "dex:pair:x" none 60000).cache
        "dex:pair:x" p2 60000).producerInvoked = true ∧
      (TTLCache.withKey t t
        (TTLCache.withKey 1000 1000 ([] : TTLCache Nat) "dex:pair:x" none 60000).cache
        "dex:pair:x" p2 60000).result = p2) :=
  ttlcache_with_undefined_spec Nat [] "dex:pair:x" 60000 1000 (by decide)

/-- The refill block never touches `lastHit`. -/
theorem refillBucket_lastHit (now : Nat) (b : Bucket) :
    (refillBucket now b).lastHit = b.lastHit := by
  unfold refillBucket
  split
  · split <;> rfl
  · rfl

/-- An admitted check stamps `lastHit` with its own instant. -/
theorem admitCheck_allowed_lastHit (now : Nat) (b : Bucket)
    (h : (admitCheck now b).1 = .allowed) :
    (admitCheck now b).2.lastHit = now := by
  unfold admitCheck at h ⊢
  split at h
  · exact absurd h (by simp)
  · split at h
    · exact absurd h (by simp)
    · rename_i h1 h2
      rw [if_neg h1, if_neg h2]

/-- An admitted call stamps `lastHit` with its own instant. -/
theorem rateLimiterStep_allowed_lastHit (now : Nat) (b? : Option Bucket)
    (h : (rateLimiterStep now b?).1 = .allowed) :
    (rateLimiterStep now b?).2.lastHit = now :=
  admitCheck_allowed_lastHit now _ h

/-- The refill block preserves the token bounds and moves the refill
timestamp only forward. -/
theorem refillBucket_inv (now : Nat) (b : Bucket) (h : BucketInv b) :
    BucketInv (refillBucket now b) ∧ b.last ≤ (refillBucket now b).last ∧
      (refillBucket now b).tokens ≤ CAPACITY := by
  obtain ⟨h0, h1⟩ := h
  unfold BucketInv at *
  unfold refillBucket
  split
  · split
    · rename_i helapsed hadd
      have hcast : (0 : Int) ≤ ((now - b.last) / REFILL_MS : Nat) :=
        Int.ofNat_nonneg _
      refine ⟨⟨?_, ?_⟩, ?_, ?_⟩
      · show (0 : Int) ≤ min CAPACITY (b.tokens + ((now - b.last) / REFILL_MS : Nat))
        refine le_min (by unfold CAPACITY; omega) (by omega)
      · exact min_le_left _ _
      · show b.last ≤ now
        omega
      · exact min_le_left _ _
    · exact ⟨⟨h0, h1⟩, Nat.le_refl _, h1⟩
  · exact ⟨⟨h0, h1⟩, Nat.le_refl _, h1⟩

/-- Case analysis of the gap/exhaustion/consume block. -/
theorem admitCheck_cases (now : Nat) (b : Bucket) :
    (admitCheck now b).2.last = b.last ∧
      ((admitCheck now b).1 = .allowed →
        (admitCheck now b).2.tokens = b.tokens - 1 ∧ 0 < b.tokens) ∧
      ((admitCheck now b).1 ≠ .allowed → (admitCheck now b).2 = b) := by
  unfold admitCheck
  split
  · exact ⟨rfl, fun hc => Decision.noConfusion hc, fun _ => rfl⟩
  · split
    · exact ⟨rfl, fun hc => Decision.noConfusion hc, fun _ => rfl⟩
    · rename_i h1 h2
      exact ⟨rfl, fun _ => ⟨rfl, by omega⟩, fun hc => absurd rfl hc⟩

/-- One admission step preserves the bucket invariant, moves timestamps
only forward, and consumes exactly one token exactly when it admits. -/
theorem rateLimiterStep_inv (now : Nat) (b : Bucket) (h : BucketInv b) :
    BucketInv (rateLimiterStep now (some b)).2 ∧
      b.last ≤ (rateLimiterStep now (some b)).2.last ∧
      (refillBucket now b).tokens ≤ CAPACITY ∧
      ((rateLimiterStep now (some b)).1 = .allowed →
        (rateLimiterStep now (some b)).2.tokens = (refillBucket now b).tokens - 1 ∧
        0 < (refillBucket now b).tokens) := by
  obtain ⟨hr, hlast, hcap⟩ := refillBucket_inv now b h
  have hstep : rateLimiterStep now (some b)
      = admitCheck now (refillBucket now b) := rfl
  obtain ⟨hl, hallow, hnot⟩ := admitCheck_cases now (refillBucket now b)
  rw [hstep]
  refine ⟨?_, ?_, hcap, hallow⟩
  · by_cases hd : (admitCheck now (refillBucket now b)).1 = .allowed
    · obtain ⟨ht, hpos⟩ := hallow hd
      obtain ⟨hr0, hr1⟩ := hr
      rw [BucketInv, ht]
      unfold CAPACITY at *
      omega
    · rw [hnot hd]
      exact hr
  · rw [hl]
    exact hlast

/-- The stored trace from a bucket satisfying the invariant keeps the
invariant and the refill timestamps monotone. -/
theorem bucketTrace_inv (ts : List Nat) (b : Bucket) (hb : BucketInv b) :
    (∀ p ∈ bucketTrace ts (some b), BucketInv p.2 ∧ b.last ≤ p.2.last) ∧
      List.Chain' (fun p q : Decision × Bucket => p.2.last ≤ q.2.last)
        (bucketTrace ts (some b)) := by
  induction ts generalizing b with
  | nil => exact ⟨by intro p hp; simp [bucketTrace] at hp, by simp [bucketTrace]⟩
  | cons t ts ih =>
    obtain ⟨hinv, hlast, _, _⟩ := rateLimiterStep_inv t b hb
    obtain ⟨ihmem, ihchain⟩ := ih (rateLimiterStep t (some b)).2 hinv
    constructor
    · intro p hp
      rw [bucketTrace] at hp
      rcases List.mem_cons.mp hp with heq | hmem
      · rw [heq]; exact ⟨hinv, hlast⟩
      · obtain ⟨hpi, hpl⟩ := ihmem p hmem
        exact ⟨hpi, le_trans hlast hpl⟩
    · rw [bucketTrace]
      rw [List.chain'_cons']
      refine ⟨?_, ihchain⟩
      intro q hq
      have hqm : q ∈ bucketTrace ts (some (rateLimiterStep t (some b)).2) :=
        List.mem_of_mem_head? hq
      exact (ihmem q hqm).2

/-- `quoteRank` is 0/1 and 1 exactly on recognized quotes. -/
theorem quoteRank_eq_one_iff (p : DexPair) :
    quoteRank p = 1 ↔ goodQuote p = true := by
  unfold quoteRank
  cases h : goodQuote p <;> simp [h]

/-- `quoteRank` never exceeds 1. -/
theorem quoteRank_le_one (p : DexPair) : quoteRank p ≤ 1 := by
  unfold quoteRank
  split <;> omega

/-- C4: in the resolver's DEX-search stage, whenever some usable candidate
carries a recognized stable/major quote, the selected candidate carries a
recognized quote (so it beats every unrecognized-quote candidate, whatever
their liquidity) and has maximal liquidity among the usable
recognized-quote candidates. -/
theorem resolver_quote_preference (pairs : List DexPair) (g : DexPair)
    (hgmem : g ∈ pairs) (hgu : hasUsableBase g = true) (hgq : goodQuote g = true) :
    ∃ w, selectDexCandidate pairs = some w ∧ goodQuote w = true ∧
      hasUsableBase w = true ∧
      ∀ b ∈ pairs, hasUsableBase b = true → goodQuote b = true →
        liqUsd b ≤ liqUsd w := by
  have hgl : g ∈ pairs.filter hasUsableBase := List.mem_filter.mpr ⟨hgmem, hgu⟩
  cases hs : selectDexCandidate pairs with
  | none =>
    exfalso
    unfold selectDexCandidate at hs
    rw [List.head?_eq_none_iff] at hs
    have := (List.perm_insertionSort pairBefore (pairs.filter hasUsableBase)).symm
    rw [hs] at this
    rw [List.perm_nil] at this
    rw [this] at hgl
    simp at hgl
  | some w =>
    unfold selectDexCandidate at hs
    obtain ⟨hwmem, hwmin⟩ := head_insertionSort_min hs
    have hwu : hasUsableBase w = true := (List.mem_filter.mp hwmem).2
    have hwg : goodQuote w = true := by
      have hle := hwmin g hgl
      have h1 := quoteRank_le_one w
      have h2 := (quoteRank_eq_one_iff g).mpr hgq
      rw [← quoteRank_eq_one_iff]
      unfold pairBefore at hle
      omega
    refine ⟨w, rfl, hwg, hwu, ?_⟩
    intro b hbmem hbu hbq
    have hble := hwmin b (List.mem_filter.mpr ⟨hbmem, hbu⟩)
    have h1 := (quoteRank_eq_one_iff w).mpr hwg
    have h2 := (quoteRank_eq_one_iff b).mpr hbq
    unfold pairBefore at hble
    omega

/-- Closed witness for `resolver_quote_preference`: a low-liquidity USDC
pair beats a much deeper pair with an unrecognized quote. -/
theorem resolver_quote_preference_witness :
    ∃ w, selectDexCandidate [pairObscure, pairUSDC] = some w ∧
      goodQuote w = true ∧ hasUsableBase w = true ∧
      ∀ b ∈ [pairObscure, pairUSDC], hasUsableBase b = true →
        goodQuote b = true → liqUsd b ≤ liqUsd w :=
  resolver_quote_preference [pairObscure, pairUSDC] pairUSDC
    (by decide) (by decide) (by decide)

/-- C1 (amended): a query that trims and lower-cases to a syntactically
valid contract address resolves to exactly that string with source
`"dex"` and with no network call issued. -/
theorem resolver_direct_address (env : ResolverEnv) (query : String)
    (h : isAddress (jsToLower (jsTrim query)) = true) :
    resolveContractFromQuery env query =
      ([], .ok (some ⟨jsToLower (jsTrim query), "dex", none⟩)) := by
  simp [resolveContractFromQuery, h]

/-- Closed witness for `resolver_direct_address`: a padded, mixed-case
address resolves without any network call. -/
theorem resolver_direct_address_witness :
    resolveContractFromQuery stubEnv " 0x2260FAC5E5542a773Aa44fBCfeDf7C193bc2C599 " =
      ([], .ok (some ⟨jsToLower (jsTrim " 0x2260FAC5E5542a773Aa44fBCfeDf7C193bc2C599 "),
        "dex", none⟩)) :=
  resolver_direct_address stubEnv " 0x2260FAC5E5542a773Aa44fBCfeDf7C193bc2C599 "
    (by decide)

/-- C1 counterexample: the claim says the direct-address case reports
source `direct`, but the code labels it `"dex"` — the same label as the
DEX-search stage. -/
theorem resolver_direct_source_counterexample :
    (resolveContractFromQuery stubEnv
        "0x2260fac5e5542a773aa44fbcfedf7c193bc2c599").2 =
      .ok (some ⟨"0x2260fac5e5542a773aa44fbcfedf7c193bc2c599", "dex", none⟩) ∧
    ("dex" : String) ≠ "direct" :=
  ⟨rfl, by decide⟩

/-- C2 (amended): resolving `"btc"` when the DEX search succeeds with no
results and the aggregator search fails (or returns no coins) yields the
WBTC static-map entry with source `"special"` and note
`"Mapped to WBTC (Ethereum)"`; when the DEX search itself fails, the
failure propagates instead. -/
theorem resolver_btc_static_fallback (env env' : ResolverEnv)
    (h1 : env.dexSearch = .ok [])
    (h2 : env.cgSearchCoins = .error () ∨ env.cgSearchCoins = .ok [])
    (h3 : env'.dexSearch = .error ()) :
    (resolveContractFromQuery env "btc").2 =
      .ok (some ⟨"0x2260FAC5E5542a773Aa44fBCfeDf7C193bc2C599", "special",
        some "Mapped to WBTC (Ethereum)"⟩) ∧
    (resolveContractFromQuery env' "btc").2 = .error () := by
  obtain ⟨ds, pd, cg, cp⟩ := env
  obtain ⟨ds', pd', cg', cp'⟩ := env'
  dsimp only at h1 h2 h3
  subst h1 h3
  constructor
  · rcases h2 with h2 | h2 <;> (subst h2; rfl)
  · rfl

/-- Closed witness for `resolver_btc_static_fallback` at the concrete
stub environments. -/
theorem resolver_btc_static_fallback_witness :
    (resolveContractFromQuery emptyEnv "btc").2 =
      .ok (some ⟨"0x2260FAC5E5542a773Aa44fBCfeDf7C193bc2C599", "special",
        some "Mapped to WBTC (Ethereum)"⟩) ∧
    (resolveContractFromQuery stubEnv "btc").2 = .error () :=
  resolver_btc_static_fallback emptyEnv stubEnv rfl (Or.inl rfl) rfl

/-- C2 counterexample: the claim says the static fallback reports source
`static-mapping`, but the code labels it `"special"` (address and note do
match). -/
theorem resolver_static_source_counterexample :
    (resolveContractFromQuery emptyEnv "btc").2 =
      .ok (some ⟨"0x2260FAC5E5542a773Aa44fBCfeDf7C193bc2C599", "special",
        some "Mapped to WBTC (Ethereum)"⟩) ∧
    ("special" : String) ≠ "static-mapping" :=
  ⟨rfl, by decide⟩

end CryptoBot
